import Mathlib

/-!
Verification of the extractive document-summarization core
(`document_summarization.py`): the TF-IDF sentence-word matrix, the corpus
centroid ("long sentence") vector, cosine-based ranking, and the greedy
budgeted selection loop of `summarize`.

The external collaborator `DocProcess` (module `document_process`, not part of
the verified source) is modelled as a structure of the corpus statistics the
core consumes.  Machine floats are modelled by real numbers; Python's `/`,
which raises `ZeroDivisionError` on a zero divisor, is modelled with `Except`
where the fault is reachable, and places where numpy silently produces NaN are
noted at the definition.
-/

/-- Modelled from the spec: the interface of the external corpus collaborator
`DocProcess` (spec section 6), whose implementation is not part of the verified
source.  Each field mirrors one accessor used by `tf_idf` and `summarize`:
`word_list` is the vocabulary, `doc_size` the number of documents, `sen_size d`
the number of sentences of document `d`, `sen_size_total` the global sentence
count used to allocate the matrix, `word_size d` the total term count of
document `d`, `word_size_total` the total term count of the corpus,
`count_in_doc w d` the number of occurrences of `w` in document `d` (the source
checks a `-1` "no such word" convention, so it is integer-valued),
`count_doc_containing_word w` the number of documents containing `w`,
`count_total_in_doc w` the corpus-wide occurrence count of `w`, and
`abstract s` the surface text of global sentence `s`. -/
structure DocProcess where
  word_list : List String
  doc_size : ℕ
  sen_size : ℕ → ℕ
  sen_size_total : ℕ
  word_size : ℕ → ℕ
  word_size_total : ℕ
  count_in_doc : String → ℕ → ℤ
  count_doc_containing_word : String → ℕ
  count_total_in_doc : String → ℕ
  abstract : ℕ → String

/-- The standalone `tf` function of the source.  The dictionary `count_word`
is initialised empty and the word-counting code announced by the comment is
absent, so the summing loop and the `tf_word` loop both run over an empty key
set.  Dictionaries are modelled as association lists; the two loops are the
fold computing `sum_count_words` and the map building `tf_word`. -/
noncomputable def tf (sentences : List (List String)) : List (String × ℝ) × List (String × ℕ) :=
  let count_word : List (String × ℕ) := []
  let sum_count_words : ℕ := count_word.foldl (fun acc p => acc + p.2) 0
  let tf_word : List (String × ℝ) :=
    count_word.map (fun p => (p.1, (p.2 : ℝ) / (sum_count_words : ℝ)))
  (tf_word, count_word)

/-- The body of the innermost loop of `tf_idf` for one `(document, word)`
pair: the TF-IDF value stored into the matrix row of every sentence of
document `doc_idx`.  `count == 0` skips (the zero-initialised entry stands);
for `count > 0` the source computes `count / wrd_sz_doc * log (doc_size /
(count_doc_containing_word + 1))`, where Python's `/` raises
`ZeroDivisionError` on a zero divisor, hence the `Except`; the `count == -1`
and final `else` branches only print and leave the zero entry unchanged. -/
noncomputable def matrixEntry (data : DocProcess) (doc_idx : ℕ) (word : String) :
    Except String ℝ :=
  if data.count_in_doc word doc_idx = 0 then .ok 0
  else if 0 < data.count_in_doc word doc_idx then
    if data.word_size doc_idx = 0 then .error "ZeroDivisionError"
    else .ok ((data.count_in_doc word doc_idx : ℝ) / (data.word_size doc_idx : ℝ) *
      Real.log ((data.doc_size : ℝ) / ((data.count_doc_containing_word word : ℝ) + 1)))
  else .ok 0

/-- The matrix entry in the fault-free runs: the `.ok` value of `matrixEntry`
(the `.error` case, in which the Python program has crashed, is mapped to an
arbitrary value; theorems that use `entryVal` carry a positive-divisor
hypothesis making that case unreachable). -/
noncomputable def entryVal (data : DocProcess) (doc_idx : ℕ) (word : String) : ℝ :=
  match matrixEntry data doc_idx word with
  | .ok x => x
  | .error _ => 0

/-- The matrix row produced for every sentence of document `d`.  The loop
stores each word's value at column `word_list.index(word)` — the index of the
word's first occurrence — so a column that is not the first occurrence of its
word is never written and keeps its zero initialisation. -/
noncomputable def rowOfDoc (data : DocProcess) (d : ℕ) : List ℝ :=
  (List.range data.word_list.length).map (fun t =>
    if data.word_list.indexOf (data.word_list.getD t "") = t then
      entryVal data d (data.word_list.getD t "")
    else 0)

/-- The rows written by the document/sentence loops of `tf_idf` for the first
`n` documents: every sentence of document `d` receives the same row
`rowOfDoc data d`, appended in order of the running global sentence index. -/
noncomputable def writtenRowsAux (data : DocProcess) : ℕ → List (List ℝ)
  | 0 => []
  | n + 1 => writtenRowsAux data n ++ List.replicate (data.sen_size n) (rowOfDoc data n)

/-- The sentence-word matrix of `tf_idf`: `np.zeros((sen_size_total,
word_list.length))` with the written rows filled in; a row index never reached
by the writing loops keeps its zero row. -/
noncomputable def s_w_matrix (data : DocProcess) : List (List ℝ) :=
  (List.range data.sen_size_total).map (fun g =>
    (writtenRowsAux data data.doc_size).getD g (List.replicate data.word_list.length 0))

/-- The centroid ("long sentence") vector of `tf_idf`: for every vocabulary
word, `tf = count_total_in_doc word / word_size_total` and
`idf = log (1 / (1 + 1))`, and the entry is `tf * idf`. -/
noncomputable def long_sen_vector (data : DocProcess) : List ℝ :=
  data.word_list.map (fun word =>
    ((data.count_total_in_doc word : ℝ) / (data.word_size_total : ℝ)) *
      Real.log (1 / (1 + 1)))

/-- `sentence1.dot(sentence2)`: the coordinatewise product summed. -/
def listDot (u v : List ℝ) : ℝ := (List.zipWith (fun a b => a * b) u v).sum

/-- `np.linalg.norm`: the Euclidean norm, the square root of the vector's dot
product with itself. -/
noncomputable def listNorm (u : List ℝ) : ℝ := Real.sqrt (listDot u u)

/-- `cos_similarity` from the source.  Note that `np.cos` is applied to the
quotient: the function returns the cosine of the cosine-similarity ratio
`dot / (amp_sen1 * amp_sen2)`, not the ratio itself.  A zero denominator (a
zero-norm operand), where numpy produces NaN with a warning, is modelled by
the real-field convention `x / 0 = 0`. -/
noncomputable def cos_similarity (sentence1 sentence2 : List ℝ) : ℝ :=
  Real.cos (listDot sentence1 sentence2 / (listNorm sentence1 * listNorm sentence2))

/-- The order realised by `sim_lst.sort(reverse=True)`: Python sorts the
`(score, index)` tuples lexicographically and then reverses the direction, so
`a` precedes `b` when `a`'s score is larger, or the scores are equal and `a`'s
index is at least `b`'s.  On pairs with distinct indices this is a total
antisymmetric order, so every sorting algorithm produces the same list;
`rank` below uses insertion sort. -/
def pairGe (a b : ℝ × ℕ) : Prop := b.1 < a.1 ∨ (a.1 = b.1 ∧ b.2 ≤ a.2)

noncomputable instance : DecidableRel pairGe := fun _ _ => Classical.propDecidable _

instance : IsTotal (ℝ × ℕ) pairGe :=
  ⟨fun a b => by
    rcases lt_trichotomy a.1 b.1 with h | h | h
    · exact Or.inr (Or.inl h)
    · rcases Nat.le_total b.2 a.2 with h2 | h2
      · exact Or.inl (Or.inr ⟨h, h2⟩)
      · exact Or.inr (Or.inr ⟨h.symm, h2⟩)
    · exact Or.inl (Or.inl h)⟩

instance : IsTrans (ℝ × ℕ) pairGe :=
  ⟨fun a b c hab hbc => by
    rcases hab with h1 | ⟨e1, l1⟩
    · rcases hbc with h2 | ⟨e2, l2⟩
      · exact Or.inl (h2.trans h1)
      · exact Or.inl (e2 ▸ h1)
    · rcases hbc with h2 | ⟨e2, l2⟩
      · exact Or.inl (e1 ▸ h2)
      · exact Or.inr ⟨e1.trans e2, l2.trans l1⟩⟩

/-- `sim_lst` as built by `summarize` before sorting: the cosine of every
matrix row against the centroid, paired with the row index
(`for r in range(s_w_matrix.shape[0])`). -/
noncomputable def simListOf (rows : List (List ℝ)) (centroid : List ℝ) : List (ℝ × ℕ) :=
  (List.range rows.length).map (fun r => (cos_similarity (rows.getD r []) centroid, r))

/-- `sim_lst.sort(reverse=True)`: the similarity ranking.  Python's sort is
stable, but the pairs are strictly totally ordered by `pairGe` (indices are
distinct), so the result is the unique `pairGe`-sorted arrangement computed
here by insertion sort. -/
noncomputable def rank (rows : List (List ℝ)) (centroid : List ℝ) : List (ℝ × ℕ) :=
  List.insertionSort pairGe (simListOf rows centroid)

/-- The selection loop of `summarize`, entered with the top-ranked sentence
already accepted.  Each iteration first tests ranking exhaustion
(`current_rank != len(sim_lst)`), then the budget (`sum_size >= 665`), then
compares the candidate against the most recently accepted sentence only;
a similarity below `0.539` accepts the candidate.  Out-of-range list indexing,
a Python `IndexError`, is `none`; the returned pair is the final
`(summary, sum_size)` state. -/
noncomputable def selectLoop (data : DocProcess) (rows : List (List ℝ))
    (simLst : List (ℝ × ℕ)) (baseRank currentRank : ℕ)
    (summary : List String) (sumSize : ℕ) : Option (List String × ℕ) :=
  if currentRank = simLst.length then some (summary, sumSize)
  else if 665 ≤ sumSize then some (summary, sumSize)
  else if h : currentRank < simLst.length ∧ baseRank < simLst.length then
    if cos_similarity (rows.getD (simLst.get ⟨currentRank, h.1⟩).2 [])
        (rows.getD (simLst.get ⟨baseRank, h.2⟩).2 []) < 0.539 then
      selectLoop data rows simLst currentRank (currentRank + 1)
        (summary ++ [data.abstract (simLst.get ⟨currentRank, h.1⟩).2])
        (sumSize + (data.abstract (simLst.get ⟨currentRank, h.1⟩).2).length)
    else selectLoop data rows simLst baseRank (currentRank + 1) summary sumSize
  else none
termination_by simLst.length - currentRank
decreasing_by all_goals omega

/-- `summarize` (the corpus construction `DocProcess(doc_path, doc_list)` is
the external collaborator, so the model takes the constructed `data`): build
the matrix and centroid, rank every row, accept the top-ranked sentence
unconditionally, then run the selection loop from `base_rank = 0`,
`current_rank = 1`.  The initial access `sim_lst[0]` raises `IndexError` on an
empty ranking, modelled as `none`. -/
noncomputable def summarize (data : DocProcess) : Option (List String) :=
  let rows := s_w_matrix data
  let simLst := rank rows (long_sen_vector data)
  if h : 0 < simLst.length then
    (selectLoop data rows simLst 0 1 [data.abstract (simLst.get ⟨0, h⟩).2]
      (data.abstract (simLst.get ⟨0, h⟩).2).length).map Prod.fst
  else none

/-- A corpus with zero documents and zero sentences, as supplied by the
collaborator when no documents are loaded. -/
def emptyData : DocProcess where
  word_list := []
  doc_size := 0
  sen_size := fun _ => 0
  sen_size_total := 0
  word_size := fun _ => 0
  word_size_total := 0
  count_in_doc := fun _ _ => 0
  count_doc_containing_word := fun _ => 0
  count_total_in_doc := fun _ => 0
  abstract := fun _ => ""

lemma listDot_self_nonneg (u : List ℝ) : 0 ≤ listDot u u := by
  induction u with
  | nil => simp [listDot]
  | cons a u ih =>
    simp only [listDot, List.zipWith_cons_cons, List.sum_cons] at *
    nlinarith [mul_self_nonneg a]

lemma eq_zero_of_listDot_self_eq_zero (u : List ℝ) (h : listDot u u = 0) :
    ∀ x ∈ u, x = 0 := by
  induction u with
  | nil => simp
  | cons a u ih =>
    have h1 : 0 ≤ listDot u u := listDot_self_nonneg u
    simp only [listDot, List.zipWith_cons_cons, List.sum_cons] at h
    simp only [listDot] at h1
    have h2 : 0 ≤ a * a := mul_self_nonneg a
    intro x hx
    rcases List.mem_cons.mp hx with rfl | hx'
    · exact mul_self_eq_zero.mp (by linarith)
    · exact ih (by simp only [listDot]; linarith) x hx'

lemma listDot_eq_zero_of_right_zero (u v : List ℝ) (hv : ∀ x ∈ v, x = 0) :
    listDot u v = 0 := by
  induction v generalizing u with
  | nil => simp [listDot]
  | cons b v ih =>
    cases u with
    | nil => simp [listDot]
    | cons a u =>
      have hb : b = 0 := hv b (List.mem_cons_self _ _)
      have hrest := ih u (fun x hx => hv x (List.mem_cons_of_mem _ hx))
      simp only [listDot, List.zipWith_cons_cons, List.sum_cons] at *
      simp [hb, hrest]

lemma listDot_comm (u v : List ℝ) : listDot u v = listDot v u := by
  induction u generalizing v with
  | nil => cases v <;> simp [listDot]
  | cons a u ih =>
    cases v with
    | nil => simp [listDot]
    | cons b v =>
      simp only [listDot, List.zipWith_cons_cons, List.sum_cons] at *
      rw [mul_comm, ih v]

lemma listDot_eq_zero_of_zero_norm (u v : List ℝ)
    (h : listNorm u = 0 ∨ listNorm v = 0) : listDot u v = 0 := by
  have key : ∀ w : List ℝ, listNorm w = 0 → ∀ x ∈ w, x = 0 := by
    intro w hw
    have hle : listDot w w ≤ 0 := Real.sqrt_eq_zero'.mp hw
    exact eq_zero_of_listDot_self_eq_zero w (le_antisymm hle (listDot_self_nonneg w))
  rcases h with hu | hv
  · rw [listDot_comm]
    exact listDot_eq_zero_of_right_zero v u (key u hu)
  · exact listDot_eq_zero_of_right_zero u v (key v hv)

lemma listDot_eq_sum_range (u v : List ℝ) (h : u.length = v.length) :
    listDot u v = ∑ i in Finset.range u.length, u.getD i 0 * v.getD i 0 := by
  induction u generalizing v with
  | nil => simp [listDot]
  | cons a u ih =>
    cases v with
    | nil => simp at h
    | cons b v =>
      simp only [List.length_cons, Nat.succ_inj] at h
      simp only [listDot, List.zipWith_cons_cons, List.sum_cons, List.length_cons]
      rw [Finset.sum_range_succ']
      simp only [List.getD_cons_succ, List.getD_cons_zero]
      rw [← ih v h]
      simp only [listDot]
      ring

lemma abs_listDot_le (u v : List ℝ) (h : u.length = v.length) :
    |listDot u v| ≤ listNorm u * listNorm v := by
  have hsq : ∀ w : List ℝ,
      listNorm w = Real.sqrt (∑ i in Finset.range w.length, w.getD i 0 ^ 2) := by
    intro w
    rw [listNorm, listDot_eq_sum_range w w rfl]
    congr 1
    exact Finset.sum_congr rfl fun i _ => (pow_two _).symm
  have hd := listDot_eq_sum_range u v h
  have hnu := hsq u
  have hnv := hsq v
  rw [hd, hnu, hnv, ← h, abs_le]
  constructor
  · have h2 := Real.sum_mul_le_sqrt_mul_sqrt (Finset.range u.length)
      (fun i => u.getD i 0) (fun i => -(v.getD i 0))
    simp only [mul_neg, Finset.sum_neg_distrib, neg_sq] at h2
    linarith
  · exact Real.sum_mul_le_sqrt_mul_sqrt _ _ _

/-- C10: for every input, the standalone `tf` function returns a pair of two
empty dictionaries — its word-counting dictionary is never populated, so no TF
value is computed and the division by the summed count is never executed. -/
theorem tf_returns_empty_dicts (sentences : List (List String)) :
    tf sentences = ([], []) := rfl

/-- C1 (code bug): `cos_similarity` does not return the ratio
`dot(u,v) / (|u| * |v|)` — it returns `np.cos` of that ratio.  At the failing
input `u = v = [1]` the ratio is `1`, so the function returns `cos 1`, which
is not `1` (it is about `0.5403`), contradicting `cosine(v, v) = 1`. -/
theorem cos_similarity_self_ne_one :
    cos_similarity [(1 : ℝ)] [(1 : ℝ)] = Real.cos 1 ∧ Real.cos 1 ≠ 1 := by
  constructor
  · simp [cos_similarity, listDot, listNorm]
  · intro h
    have h1 : -(2 * Real.pi) < (1 : ℝ) := by nlinarith [Real.pi_gt_three]
    have h2 : (1 : ℝ) < 2 * Real.pi := by nlinarith [Real.pi_gt_three]
    have := (Real.cos_eq_one_iff_of_lt_of_lt h1 h2).mp h
    norm_num at this

/-- C2 (amended): `rank` sorts the `(score, sentenceIndex)` pairs descending
by score, but a tie between equal scores is broken by DESCENDING original
sentence index — Python's `sort(reverse=True)` compares the index as part of
the reversed lexicographic tuple order.  The ranking is exactly the
`pairGe`-sorted permutation of the unsorted similarity list. -/
theorem rank_sorted_pairGe (rows : List (List ℝ)) (centroid : List ℝ) :
    List.Sorted pairGe (rank rows centroid) ∧
      (rank rows centroid).Perm (simListOf rows centroid) :=
  ⟨List.sorted_insertionSort pairGe _, List.perm_insertionSort pairGe _⟩

/-- C2 counterexample: two sentences with equal scores (identical rows, hence
both score `cos 1` against the centroid).  The claim says the pair with the
smaller original index comes first; the code puts index `1` before index
`0`. -/
theorem rank_equal_scores_descending_index :
    rank [[(1 : ℝ)], [(1 : ℝ)]] [(1 : ℝ)] = [(Real.cos 1, 1), (Real.cos 1, 0)] ∧
      ((rank [[(1 : ℝ)], [(1 : ℝ)]] [(1 : ℝ)]).getD 0 (0, 0)).1 =
        ((rank [[(1 : ℝ)], [(1 : ℝ)]] [(1 : ℝ)]).getD 1 (0, 0)).1 ∧
      ((rank [[(1 : ℝ)], [(1 : ℝ)]] [(1 : ℝ)]).getD 1 (0, 0)).2 <
        ((rank [[(1 : ℝ)], [(1 : ℝ)]] [(1 : ℝ)]).getD 0 (0, 0)).2 := by
  have hcs : cos_similarity [(1 : ℝ)] [(1 : ℝ)] = Real.cos 1 := by
    simp [cos_similarity, listDot, listNorm]
  have hn : ¬ pairGe (Real.cos 1, 0) (Real.cos 1, 1) := by
    simp [pairGe]
  have hsim : simListOf [[(1 : ℝ)], [(1 : ℝ)]] [(1 : ℝ)] =
      [(Real.cos 1, 0), (Real.cos 1, 1)] := by
    simp [simListOf, List.range_succ, hcs]
  have hmain : rank [[(1 : ℝ)], [(1 : ℝ)]] [(1 : ℝ)] =
      [(Real.cos 1, 1), (Real.cos 1, 0)] := by
    rw [rank, hsim]
    simp only [List.insertionSort, List.orderedInsert]
    rw [if_neg hn]
  refine ⟨hmain, ?_, ?_⟩ <;> rw [hmain] <;> simp

/-- C3 (amended): a zero-norm operand is not special-cased by the code: the
dot product is then `0` and the denominator is `0`, so the comparison
evaluates to `cos (0 / 0)` — NaN in IEEE arithmetic; under the real-field
convention `x / 0 = 0` used by this model the function returns `cos 0 = 1` —
and in neither semantics the similarity `0` promised by the spec. -/
theorem cos_similarity_zero_norm_eq_one (u v : List ℝ)
    (h : listNorm u = 0 ∨ listNorm v = 0) : cos_similarity u v = 1 := by
  have hdot := listDot_eq_zero_of_zero_norm u v h
  simp only [cos_similarity, hdot, zero_div, Real.cos_zero]

/-- C3 witness: concrete zero-norm comparison evaluating to `1`. -/
theorem cos_similarity_zero_norm_eq_one_witness :
    cos_similarity [(2 : ℝ)] [(0 : ℝ)] = 1 :=
  cos_similarity_zero_norm_eq_one _ _ (Or.inr (by simp [listNorm, listDot]))

/-- C3 counterexample: `[0]` has zero norm, yet the comparison of `[1]`
against it does not evaluate to similarity `0` (the model value is
`cos 0 = 1`; numpy produces NaN). -/
theorem cos_similarity_zero_norm_not_zero :
    listNorm [(0 : ℝ)] = 0 ∧ cos_similarity [(1 : ℝ)] [(0 : ℝ)] ≠ 0 := by
  constructor
  · simp [listNorm, listDot]
  · have h1 : cos_similarity [(1 : ℝ)] [(0 : ℝ)] = 1 := by
      simp [cos_similarity, listDot, listNorm]
    rw [h1]
    norm_num

/-- C4 (amended): on a corpus with zero sentences `summarize` does not return
an empty sequence — the ranking is empty and the unconditional acceptance of
the top-ranked sentence reads `sim_lst[0]`, raising `IndexError` (`none` in
the model). -/
theorem summarize_empty_corpus_none (data : DocProcess)
    (h : data.sen_size_total = 0) : summarize data = none := by
  have hrows : s_w_matrix data = [] := by simp [s_w_matrix, h]
  have hsim : simListOf (s_w_matrix data) (long_sen_vector data) = [] := by
    simp [simListOf, hrows]
  simp [summarize, rank, hsim]

/-- C4 witness: the amended statement applied to the concrete empty corpus. -/
theorem summarize_empty_corpus_none_witness : summarize emptyData = none :=
  summarize_empty_corpus_none emptyData rfl

/-- C4 counterexample: on the empty corpus `summarize` fails instead of
returning the empty sequence the claim promises. -/
theorem summarize_empty_corpus_fails :
    summarize emptyData = none ∧ summarize emptyData ≠ some [] := by
  have h : summarize emptyData = none := by
    simp [summarize, rank, simListOf, s_w_matrix, emptyData]
  exact ⟨h, by rw [h]; simp⟩

/-- C6: for same-length weight vectors (such as a matrix row and the centroid)
with non-negative entries and nonzero norms, the value returned by
`cos_similarity` lies in `[0, 1]`.  By Cauchy-Schwarz the quotient lies in
`[-1, 1] ⊆ (-π/2, π/2)`, so its cosine — which is what the code returns —
lies in `(0, 1]`; note this holds independently of the sign hypotheses. -/
theorem cos_similarity_mem_unit_interval (u v : List ℝ) (hlen : u.length = v.length)
    (hu : ∀ x ∈ u, 0 ≤ x) (hv : ∀ x ∈ v, 0 ≤ x)
    (hnu : listNorm u ≠ 0) (hnv : listNorm v ≠ 0) :
    0 ≤ cos_similarity u v ∧ cos_similarity u v ≤ 1 := by
  have hposu : 0 < listNorm u :=
    lt_of_le_of_ne (Real.sqrt_nonneg _) (Ne.symm hnu)
  have hposv : 0 < listNorm v :=
    lt_of_le_of_ne (Real.sqrt_nonneg _) (Ne.symm hnv)
  have hden : 0 < listNorm u * listNorm v := mul_pos hposu hposv
  have hratio : |listDot u v / (listNorm u * listNorm v)| ≤ 1 := by
    rw [abs_div, abs_of_pos hden]
    exact div_le_one_of_le (abs_listDot_le u v hlen) (le_of_lt hden)
  rw [abs_le] at hratio
  have hpi : (1 : ℝ) < Real.pi / 2 := by nlinarith [Real.pi_gt_three]
  simp only [cos_similarity]
  constructor
  · refine le_of_lt (Real.cos_pos_of_mem_Ioo ⟨?_, ?_⟩)
    · linarith [hratio.1]
    · linarith [hratio.2]
  · exact Real.cos_le_one _

/-- C6 witness: concrete non-negative same-length vectors with nonzero
norms. -/
theorem cos_similarity_mem_unit_interval_witness :
    0 ≤ cos_similarity [(1 : ℝ)] [(1 : ℝ)] ∧ cos_similarity [(1 : ℝ)] [(1 : ℝ)] ≤ 1 :=
  cos_similarity_mem_unit_interval [(1 : ℝ)] [(1 : ℝ)] rfl
    (by intro x hx; simp at hx; simp [hx])
    (by intro x hx; simp at hx; simp [hx])
    (by simp [listNorm, listDot])
    (by simp [listNorm, listDot])

/-- The global index of the first sentence of document `d` (the running value
of `general_sen_idx` when the loop reaches document `d`): the number of
sentences of the preceding documents. -/
def senBefore (data : DocProcess) : ℕ → ℕ
  | 0 => 0
  | d + 1 => senBefore data d + data.sen_size d

lemma writtenRowsAux_length (data : DocProcess) :
    ∀ n, (writtenRowsAux data n).length = senBefore data n := by
  intro n
  induction n with
  | zero => rfl
  | succ m ih => simp [writtenRowsAux, senBefore, ih]

lemma senBefore_block_le (data : DocProcess) {d n : ℕ} (h : d < n) :
    senBefore data d + data.sen_size d ≤ senBefore data n := by
  induction n with
  | zero => omega
  | succ m ih =>
    rcases Nat.lt_succ_iff_lt_or_eq.mp h with h' | rfl
    · have := ih h'
      simp only [senBefore]
      omega
    · simp only [senBefore]
      omega

lemma writtenRowsAux_getD (data : DocProcess) {d k : ℕ} (hk : k < data.sen_size d)
    (dflt : List ℝ) :
    ∀ n, d < n →
      (writtenRowsAux data n).getD (senBefore data d + k) dflt = rowOfDoc data d := by
  intro n
  induction n with
  | zero => exact fun h => absurd h (Nat.not_lt_zero d)
  | succ m ih =>
    intro h
    rcases Nat.lt_succ_iff_lt_or_eq.mp h with h' | rfl
    · have hlen : senBefore data d + k < (writtenRowsAux data m).length := by
        rw [writtenRowsAux_length]
        have := senBefore_block_le data h'
        omega
      rw [writtenRowsAux, List.getD_append _ _ _ _ hlen]
      exact ih h'
    · have hlen : (writtenRowsAux data d).length ≤ senBefore data d + k := by
        rw [writtenRowsAux_length]
        omega
      rw [writtenRowsAux, List.getD_append_right _ _ _ _ hlen, writtenRowsAux_length]
      have hidx : senBefore data d + k - senBefore data d = k := by omega
      rw [hidx, List.getD_eq_getElem _ _ (by simpa using hk)]
      simp

lemma s_w_matrix_getD (data : DocProcess) {s : ℕ} (hs : s < data.sen_size_total)
    (dflt : List ℝ) :
    (s_w_matrix data).getD s dflt =
      (writtenRowsAux data data.doc_size).getD s
        (List.replicate data.word_list.length 0) := by
  rw [s_w_matrix, List.getD_eq_getElem _ _ (by simpa using hs)]
  simp

lemma rowOfDoc_getD (data : DocProcess) (d : ℕ) {t : ℕ}
    (ht : t < data.word_list.length) (hNodup : data.word_list.Nodup) :
    (rowOfDoc data d).getD t 0 = entryVal data d (data.word_list.getD t "") := by
  rw [rowOfDoc, List.getD_eq_getElem _ _ (by simpa using ht)]
  simp only [List.getElem_map, List.getElem_range]
  rw [if_pos]
  rw [List.getD_eq_getElem _ _ ht]
  exact List.indexOf_getElem hNodup t ht

lemma entryVal_eq_zero_iff (data : DocProcess) (d : ℕ) (w : String)
    (hd : d < data.doc_size) (hw : 0 < data.word_size d)
    (hc : 0 ≤ data.count_in_doc w d) :
    entryVal data d w = 0 ↔
      (data.count_in_doc w d = 0 ∨
        data.doc_size = data.count_doc_containing_word w + 1) := by
  by_cases h0 : data.count_in_doc w d = 0
  · simp [entryVal, matrixEntry, h0]
  · have hpos : 0 < data.count_in_doc w d := lt_of_le_of_ne hc (Ne.symm h0)
    have hwne : data.word_size d ≠ 0 := Nat.pos_iff_ne_zero.mp hw
    rw [entryVal, matrixEntry, if_neg h0, if_pos hpos, if_neg hwne]
    have htf : (data.count_in_doc w d : ℝ) / (data.word_size d : ℝ) ≠ 0 := by
      apply div_ne_zero
      · exact_mod_cast h0
      · exact_mod_cast hwne
    have hdspos : 0 < data.doc_size := Nat.lt_of_le_of_lt (Nat.zero_le d) hd
    have hdsposR : (0 : ℝ) < (data.doc_size : ℝ) := by exact_mod_cast hdspos
    have hdenpos : (0 : ℝ) < (data.count_doc_containing_word w : ℝ) + 1 := by positivity
    have hfrac : (data.doc_size : ℝ) / ((data.count_doc_containing_word w : ℝ) + 1) = 1 ↔
        data.doc_size = data.count_doc_containing_word w + 1 := by
      rw [div_eq_one_iff_eq (ne_of_gt hdenpos)]
      constructor
      · intro hh
        exact_mod_cast hh
      · intro hh
        exact_mod_cast hh
    rw [mul_eq_zero, or_iff_right htf, Real.log_eq_zero]
    constructor
    · rintro (hx | hx | hx)
      · exact absurd hx (div_ne_zero (ne_of_gt hdsposR) (ne_of_gt hdenpos))
      · exact Or.inr (hfrac.mp hx)
      · exfalso
        have := div_pos hdsposR hdenpos
        linarith
    · rintro (hx | hx)
      · exact absurd hx h0
      · exact Or.inr (Or.inl (hfrac.mpr hx))

/-- A two-document corpus (one sentence per document) whose single vocabulary
word appears once, in document 0 only, so `count_doc_containing_word = 1` and
the word's IDF is `log (2 / (1 + 1)) = 0`. -/
def data5 : DocProcess where
  word_list := ["w"]
  doc_size := 2
  sen_size := fun _ => 1
  sen_size_total := 2
  word_size := fun _ => 1
  word_size_total := 2
  count_in_doc := fun _ d => if d = 0 then 1 else 0
  count_doc_containing_word := fun _ => 1
  count_total_in_doc := fun _ => 1
  abstract := fun _ => "s"

/-- C5 (amended): the matrix entry `(s, t)` is exactly zero iff term `t`'s
count in sentence `s`'s containing document `d` is zero OR the IDF factor
vanishes because `doc_size = count_doc_containing_word + 1` (then
`idf = log 1 = 0`); so — against the claim — an entry can be exactly zero for
a term that is present in the document. -/
theorem matrix_entry_zero_iff (data : DocProcess) (d k s t : ℕ)
    (hNodup : data.word_list.Nodup)
    (hd : d < data.doc_size) (hk : k < data.sen_size d)
    (hs : s = senBefore data d + k) (hst : s < data.sen_size_total)
    (ht : t < data.word_list.length)
    (hw : 0 < data.word_size d)
    (hc : 0 ≤ data.count_in_doc (data.word_list.getD t "") d) :
    (((s_w_matrix data).getD s []).getD t 0 = 0 ↔
      (data.count_in_doc (data.word_list.getD t "") d = 0 ∨
        data.doc_size = data.count_doc_containing_word (data.word_list.getD t "") + 1)) := by
  subst hs
  rw [s_w_matrix_getD data hst, writtenRowsAux_getD data hk _ _ hd,
    rowOfDoc_getD data d ht hNodup]
  exact entryVal_eq_zero_iff data d _ hd hw hc

/-- C5 witness: the amended equivalence instantiated on `data5` at sentence 0,
term 0. -/
theorem matrix_entry_zero_iff_witness :
    ((s_w_matrix data5).getD 0 []).getD 0 0 = 0 ↔
      (data5.count_in_doc (data5.word_list.getD 0 "") 0 = 0 ∨
        data5.doc_size = data5.count_doc_containing_word (data5.word_list.getD 0 "") + 1) :=
  matrix_entry_zero_iff data5 0 0 0 0 (by decide) (by decide) (by decide) rfl
    (by decide) (by decide) (by decide) (by decide)

/-- C5 counterexample: in `data5` the vocabulary word is present in document 0
(count 1, not 0), yet its matrix entry at sentence 0 is exactly 0, because the
IDF is `log (2 / (1 + 1)) = log 1 = 0`. -/
theorem matrix_entry_zero_for_present_term :
    ((s_w_matrix data5).getD 0 []).getD 0 0 = 0 ∧ data5.count_in_doc "w" 0 = 1 := by
  refine ⟨?_, by decide⟩
  have hm : (s_w_matrix data5).getD 0 [] = rowOfDoc data5 0 := by
    rw [s_w_matrix_getD data5 (show (0 : ℕ) < data5.sen_size_total by decide)]
    have h := writtenRowsAux_getD data5
      (show (0 : ℕ) < data5.sen_size 0 by decide)
      (List.replicate data5.word_list.length 0) data5.doc_size (by decide)
    simpa using h
  rw [hm, rowOfDoc_getD data5 0 (by decide) (by decide)]
  have hword : data5.word_list.getD 0 "" = "w" := rfl
  rw [hword]
  simp only [entryVal, matrixEntry]
  norm_num [data5]

/-- A corpus whose document 0 reports zero total term occurrences while a word
reports a positive count there: the TF division has a zero divisor. -/
def data7 : DocProcess where
  word_list := ["w"]
  doc_size := 1
  sen_size := fun _ => 1
  sen_size_total := 1
  word_size := fun _ => 0
  word_size_total := 0
  count_in_doc := fun _ _ => 1
  count_doc_containing_word := fun _ => 1
  count_total_in_doc := fun _ => 1
  abstract := fun _ => ""

/-- C7 (amended): when the TF divisor `word_size doc` is zero and the word's
count is positive, the raw division-by-zero fault propagates out of the matrix
computation — there is no interception and no `EmptyDocumentError` anywhere in
the code.  (When every count is zero the division is skipped entirely and no
failure occurs at all.) -/
theorem matrixEntry_zero_divisor_raw_fault (data : DocProcess) (d : ℕ) (w : String)
    (hw : data.word_size d = 0) (hc : 0 < data.count_in_doc w d) :
    matrixEntry data d w = Except.error "ZeroDivisionError" := by
  rw [matrixEntry, if_neg (by omega), if_pos hc, if_pos hw]

/-- C7 witness: the amended statement on the concrete corpus `data7`. -/
theorem matrixEntry_zero_divisor_raw_fault_witness :
    matrixEntry data7 0 "x" = Except.error "ZeroDivisionError" :=
  matrixEntry_zero_divisor_raw_fault data7 0 "x" rfl (by decide)

/-- C7 counterexample: computing the TF-IDF entry for a document whose total
term count is 0 (and a positive word count) yields the raw
`ZeroDivisionError` fault, not a mapped `EmptyDocumentError` domain error. -/
theorem matrixEntry_raw_fault_concrete :
    matrixEntry data7 0 "w" = Except.error "ZeroDivisionError" := by
  rw [matrixEntry]
  norm_num [data7]

/-- C9: every centroid entry equals (the term's corpus-wide occurrence count
divided by the corpus-wide total term count) times the constant
`log (1 / 2)` — the source's `idf = log (1 / (1 + 1))`. -/
theorem long_sen_vector_entry (data : DocProcess) (i : ℕ)
    (h : i < data.word_list.length)
    (hpos : 0 < data.count_total_in_doc (data.word_list.getD i ""))
    (htot : 0 < data.word_size_total) :
    (long_sen_vector data).getD i 0 =
      ((data.count_total_in_doc (data.word_list.getD i "") : ℝ) /
        (data.word_size_total : ℝ)) * Real.log (1 / 2) := by
  rw [long_sen_vector, List.getD_eq_getElem _ _ (by simpa using h)]
  simp only [List.getElem_map]
  rw [List.getD_eq_getElem _ _ h]
  norm_num

/-- C9 witness: the centroid entry of `data5`'s single word. -/
theorem long_sen_vector_entry_witness :
    (long_sen_vector data5).getD 0 0 =
      ((data5.count_total_in_doc (data5.word_list.getD 0 "") : ℝ) /
        (data5.word_size_total : ℝ)) * Real.log (1 / 2) :=
  long_sen_vector_entry data5 0 (by decide) (by decide) (by decide)

lemma selectLoop_extends (data : DocProcess) (rows : List (List ℝ))
    (simLst : List (ℝ × ℕ)) :
    ∀ fuel b c summ sz res, simLst.length - c ≤ fuel →
      selectLoop data rows simLst b c summ sz = some res →
      (∃ t2, res.1 = summ ++ t2) ∧ sz ≤ res.2 := by
  intro fuel
  induction fuel with
  | zero =>
    intro b c summ sz res hf hres
    rw [selectLoop] at hres
    by_cases hc : c = simLst.length
    · rw [if_pos hc] at hres
      injection hres with h
      subst h
      exact ⟨⟨[], by simp⟩, le_refl _⟩
    · rw [if_neg hc] at hres
      by_cases hb : 665 ≤ sz
      · rw [if_pos hb] at hres
        injection hres with h
        subst h
        exact ⟨⟨[], by simp⟩, le_refl _⟩
      · rw [if_neg hb] at hres
        rw [dif_neg (by omega)] at hres
        simp at hres
  | succ n ih =>
    intro b c summ sz res hf hres
    rw [selectLoop] at hres
    by_cases hc : c = simLst.length
    · rw [if_pos hc] at hres
      injection hres with h
      subst h
      exact ⟨⟨[], by simp⟩, le_refl _⟩
    · rw [if_neg hc] at hres
      by_cases hb : 665 ≤ sz
      · rw [if_pos hb] at hres
        injection hres with h
        subst h
        exact ⟨⟨[], by simp⟩, le_refl _⟩
      · rw [if_neg hb] at hres
        by_cases hlt : c < simLst.length ∧ b < simLst.length
        · rw [dif_pos hlt] at hres
          by_cases hsim : cos_similarity (rows.getD (simLst.get ⟨c, hlt.1⟩).2 [])
              (rows.getD (simLst.get ⟨b, hlt.2⟩).2 []) < 0.539
          · rw [if_pos hsim] at hres
            obtain ⟨⟨t2, ht2⟩, hsz⟩ := ih c (c + 1) _ _ res (by omega) hres
            refine ⟨⟨[data.abstract (simLst.get ⟨c, hlt.1⟩).2] ++ t2, ?_⟩, by omega⟩
            rw [ht2, List.append_assoc]
          · rw [if_neg hsim] at hres
            exact ih b (c + 1) summ sz res (by omega) hres
        · rw [dif_neg hlt] at hres
          simp at hres

/-- C8: invariants of the selection loop of `summarize`.  First, the summary
only grows (whatever is returned extends the summary so far, and the
accumulated character length `sum_size` is monotonically non-decreasing).
Second, once `sum_size` is at least the 665-character budget at loop entry,
the loop returns immediately and appends nothing (the budget check precedes
the append).  Third, once the ranking is exhausted
(`current_rank = len(sim_lst)`) the loop likewise stops unchanged; the loop
always terminates, being well-founded on `len(sim_lst) - current_rank`. -/
theorem selectLoop_invariants (data : DocProcess) (rows : List (List ℝ))
    (simLst : List (ℝ × ℕ)) (baseRank currentRank : ℕ)
    (summary : List String) (sumSize : ℕ) :
    (∀ res, selectLoop data rows simLst baseRank currentRank summary sumSize = some res →
        (∃ t2, res.1 = summary ++ t2) ∧ sumSize ≤ res.2)
    ∧ (665 ≤ sumSize →
        selectLoop data rows simLst baseRank currentRank summary sumSize =
          some (summary, sumSize))
    ∧ (currentRank = simLst.length →
        selectLoop data rows simLst baseRank currentRank summary sumSize =
          some (summary, sumSize)) := by
  refine ⟨fun res hres => selectLoop_extends data rows simLst
    (simLst.length - currentRank) baseRank currentRank summary sumSize res
    (le_refl _) hres, fun hb => ?_, fun hc => ?_⟩
  · rw [selectLoop]
    by_cases hc : currentRank = simLst.length
    · rw [if_pos hc]
    · rw [if_neg hc, if_pos hb]
  · rw [selectLoop, if_pos hc]

/-- C8 witness: the three invariants applied at concrete loop states — the
budget stop at `sum_size = 700 ≥ 665`, the exhaustion stop on an empty
ranking, and the extension property for the returned state. -/
theorem selectLoop_invariants_witness :
    selectLoop emptyData [] [] 0 0 [] 700 = some ([], 700) ∧
      selectLoop emptyData [] [] 0 0 ["a"] 3 = some (["a"], 3) ∧
      ((∃ t2, ((["a"], (3 : ℕ)) : List String × ℕ).1 = ["a"] ++ t2) ∧
        (3 : ℕ) ≤ ((["a"], (3 : ℕ)) : List String × ℕ).2) :=
  ⟨(selectLoop_invariants emptyData [] [] 0 0 [] 700).2.1 (by norm_num),
    (selectLoop_invariants emptyData [] [] 0 0 ["a"] 3).2.2 rfl,
    (selectLoop_invariants emptyData [] [] 0 0 ["a"] 3).1 (["a"], 3)
      ((selectLoop_invariants emptyData [] [] 0 0 ["a"] 3).2.2 rfl)⟩
